import Mathlib

/-!
Verification of the sd-leetcode submission evaluation pipeline.

A shallow embedding, in Lean 4, of the submission evaluation pipeline of
`backend/main.go`: the JSON input/output reduction (the `switch` on the
unmarshalled `interface` value followed by `json.Marshal`), the per-test-case
loop of `submissionWorker`, the Go string helpers it uses
(`strings.TrimSpace`, the null-byte `strings.ReplaceAll`, `fmt.Sprintf "%q"`),
the Docker-level `executePythonCodeInContainerTest` adapter, and the
submission status state machine around the in-memory queue.

Conventions of the embedding:
* Go strings are Lean `String`s (lists of characters); byte-level details of
  UTF-8 are not modelled.
* A stored `datatypes.JSON` column is modelled by the result of
  `json.Unmarshal` on it: `Option Json`, where `none` stands for bytes that
  fail to unmarshal. Go decodes objects into `map[string]interface` values,
  which forget field order and re-marshal in sorted key order, so `Json.obj`
  field lists are kept in the key order `json.Marshal` would emit.
* JSON numbers are modelled as integers (`Int`); the problems' test data in
  this repository only uses integer values, and no claim depends on float
  formatting.
* External effects (the Docker daemon, the database) are modelled as explicit
  oracle parameters describing the result of each call the code makes.
-/

namespace CodeJudge

/-- Structured JSON value, the model of a decoded `interface` value
(`json.Unmarshal` target) in `backend/main.go`. Object fields are kept in the
sorted key order that Go's `map[string]interface` marshalling emits. -/
inductive Json where
  | str (s : String)
  | num (n : Int)
  | bool (b : Bool)
  | null
  | arr (elems : List Json)
  | obj (fields : List (String × Json))

/-- Lower-case hex digit for a value below 16, as Go's escapers print it. -/
def hexDigit (n : Nat) : Char :=
  if n < 10 then Char.ofNat (48 + n) else Char.ofNat (87 + n)

/-- Two lower-case hex digits of a byte value, used by Go's escapers. -/
def hexByte (n : Nat) : String :=
  String.mk [hexDigit ((n / 16) % 16), hexDigit (n % 16)]

/-- One character of a Go `encoding/json` string literal (the default
HTML-escaping encoder: `"` `\` and control characters escaped, `<` `>` `&`
and U+2028/U+2029 escaped as `\uNNNN`). -/
def jsonEscapeChar (c : Char) : String :=
  if c = '"' then "\\\""
  else if c = '\\' then "\\\\"
  else if c = '\n' then "\\n"
  else if c = '\r' then "\\r"
  else if c = '\t' then "\\t"
  else if c = '<' then "\\u003c"
  else if c = '>' then "\\u003e"
  else if c = '&' then "\\u0026"
  else if c.toNat < 32 then "\\u00" ++ hexByte c.toNat
  else if c.toNat = 8232 then "\\u2028"
  else if c.toNat = 8233 then "\\u2029"
  else String.singleton c

/-- Go `encoding/json` escaping of the characters of a string, without the
surrounding quotes. -/
def jsonEscape (s : String) : String :=
  String.join (s.data.map jsonEscapeChar)

mutual

/-- Compact serialization of a structured value, the model of `json.Marshal`
on a decoded `interface` value in `backend/main.go` (no spaces, objects in
sorted key order as recorded in the `Json.obj` field list). -/
def serializeJson : Json → String
  | Json.str s => "\"" ++ jsonEscape s ++ "\""
  | Json.num n => toString n
  | Json.bool b => if b then "true" else "false"
  | Json.null => "null"
  | Json.arr elems => "[" ++ serializeArr elems ++ "]"
  | Json.obj fields => "\x7b" ++ serializeObj fields ++ "\x7d"

/-- Comma-separated compact serialization of array elements. -/
def serializeArr : List Json → String
  | [] => ""
  | [x] => serializeJson x
  | x :: y :: rest => serializeJson x ++ "," ++ serializeArr (y :: rest)

/-- Comma-separated compact serialization of object fields. -/
def serializeObj : List (String × Json) → String
  | [] => ""
  | [(k, v)] => "\"" ++ jsonEscape k ++ "\":" ++ serializeJson v
  | (k, v) :: f :: rest =>
      "\"" ++ jsonEscape k ++ "\":" ++ serializeJson v ++ "," ++ serializeObj (f :: rest)

end

/-- Go `unicode.IsSpace` on a character, the predicate `strings.TrimSpace`
trims by: ASCII whitespace, NEL, NBSP and the Unicode `White_Space` points. -/
def goIsSpace (c : Char) : Bool :=
  let n := c.toNat
  n = 32 || (9 ≤ n && n ≤ 13) || n = 133 || n = 160 ||
  n = 5760 || (8192 ≤ n && n ≤ 8202) || n = 8232 || n = 8233 ||
  n = 8239 || n = 8287 || n = 12288

/-- Model of Go `strings.TrimSpace`: drop leading and trailing whitespace
characters. -/
def goTrimSpace (s : String) : String :=
  String.mk (((s.data.dropWhile goIsSpace).reverse.dropWhile goIsSpace).reverse)

/-- Model of Go `strings.ReplaceAll s "\x00" ""`: remove every null byte.
`backend/main.go` applies this to sandbox output (line 391) and to every
`Submission.Output` value before saving (lines 325, 409, 421). -/
def stripNulls (s : String) : String :=
  String.mk (s.data.filter (fun c => c ≠ Char.ofNat 0))

/-- One character of a Go `fmt.Sprintf "%q"` (`strconv.Quote`) double-quoted
literal: `"` and `\` escaped, the named control escapes, other control bytes
as `\xNN`; printable characters (including non-ASCII printable runes, which
this model passes through verbatim) stand for themselves. -/
def goQuoteChar (c : Char) : String :=
  if c = '"' then "\\\""
  else if c = '\\' then "\\\\"
  else if c.toNat = 7 then "\\a"
  else if c.toNat = 8 then "\\b"
  else if c.toNat = 12 then "\\f"
  else if c = '\n' then "\\n"
  else if c = '\r' then "\\r"
  else if c = '\t' then "\\t"
  else if c.toNat = 11 then "\\v"
  else if c.toNat < 32 || c.toNat = 127 then "\\x" ++ hexByte c.toNat
  else String.singleton c

/-- Model of Go `fmt.Sprintf "%q" s`: a double-quoted Go string literal. -/
def goQuote (s : String) : String :=
  "\"" ++ String.join (s.data.map goQuoteChar) ++ "\""

/-- The `switch` on the decoded test input / expected output in
`submissionWorker` (lines 348-358 and 368-378): a plain string passes through
unchanged, any other shape is re-marshalled to its compact JSON text. -/
def inputStrOf : Json → String
  | Json.str s => s
  | v => serializeJson v

/-- The wrapper program text `executePythonCodeInContainerTest` builds
(lines 434-437): `exec` of the submitted source followed by a `print` of the
named function applied to the quoted test input as its sole argument. -/
def buildWrapper (code functionName testInput : String) : String :=
  "exec('''" ++ code ++ "''')\n" ++
    ("print(" ++ functionName ++ "(" ++ goQuote testInput ++ "))\n")

/-- A stored test case, with `Input` and `Output` given as the result of
`json.Unmarshal` on the stored bytes (`none` for bytes that fail to decode). -/
structure TestCase where
  Input : Option Json
  Output : Option Json

/-- The part of a stored `Problem` record the worker reads: the function name
to call and the test cases in stored order. -/
structure Problem where
  FunctionName : String
  TestCases : List TestCase

/-- The part of a stored `Submission` record the pipeline reads and writes. -/
structure Submission where
  ProblemID : Nat
  Code : String
  Language : String
  Passed : Bool
  Output : String
  Status : String
deriving DecidableEq

/-- The fallback of `submissionWorker` lines 331-334: use the problem's
function name, or `solve` when unset. -/
def effectiveFunctionName (p : Problem) : String :=
  if p.FunctionName = "" then "solve" else p.FunctionName

/-- Oracle for one sandbox execution, abstracting
`executePythonCodeInContainerTest (code, functionName, inputStr)`:
`some (Except.ok out)` is a run that returned output `out`,
`some (Except.error e)` a run that returned error `e`, and `none` a call
that never returns (the adapter blocks forever, see `WaitMsg`). -/
def Exec : Type :=
  String → String → String → Option (Except String String)

/-- The per-test-case loop of `submissionWorker` (lines 337-399), processing
the cases from 1-based index `idx` on and returning `(allPassed, details)`;
`none` when some sandbox call never returns. Each case, in order: decode the
input (else record `invalid input format`, fail, continue), reduce it, decode
the expected output (else record `invalid expected output format`, fail,
continue), reduce it, execute (on error record `execution error`, fail,
continue), trim whitespace from the actual output, strip null bytes, and
compare for exact equality with the reduced expected output. -/
def runCases (code functionName : String) (exec : Exec) (idx : Nat) :
    List TestCase → Option (Bool × String)
  | [] => some (true, "")
  | tc :: rest =>
    match tc.Input with
    | none =>
        (runCases code functionName exec (idx + 1) rest).map fun pd =>
          (false, ("Test case " ++ toString idx ++ ": invalid input format.\n") ++ pd.2)
    | some v =>
      let inputStr := inputStrOf v
      match tc.Output with
      | none =>
          (runCases code functionName exec (idx + 1) rest).map fun pd =>
            (false,
              ("Test case " ++ toString idx ++ ": invalid expected output format.\n") ++ pd.2)
      | some w =>
        let expectedStr := inputStrOf w
        match exec code functionName inputStr with
        | none => none
        | some (Except.error e) =>
            (runCases code functionName exec (idx + 1) rest).map fun pd =>
              (false,
                ("Test case " ++ toString idx ++ ": execution error: " ++ e ++ "\n") ++ pd.2)
        | some (Except.ok out) =>
          let cleaned := stripNulls (goTrimSpace out)
          if cleaned = expectedStr then
            (runCases code functionName exec (idx + 1) rest).map fun pd =>
              (pd.1, ("Test case " ++ toString idx ++ " passed.\n") ++ pd.2)
          else
            (runCases code functionName exec (idx + 1) rest).map fun pd =>
              (false,
                ("Test case " ++ toString idx ++ " failed: expected `" ++ expectedStr ++
                  "`, got `" ++ cleaned ++ "`\n") ++ pd.2)

/-- The verdict step of `submissionWorker` (lines 400-406): run all cases
from index 1; if all passed the output is the fixed summary
`All test cases passed.`, otherwise the accumulated per-case details. -/
def evaluatePython (code functionName : String) (exec : Exec)
    (cases : List TestCase) : Option (Bool × String) :=
  (runCases code functionName exec 1 cases).map fun pd =>
    if pd.1 then (true, "All test cases passed.") else (false, pd.2)

/-- One worker iteration on a fetched submission (`submissionWorker`
lines 319-423), given the result of the `Problem` lookup (`none` models a
`db.Preload.First` error) and the sandbox oracle. Returns the record as
saved, or `none` when a sandbox call never returns. -/
def submissionWorkerStep (exec : Exec) (lookup : Option Problem)
    (sub : Submission) : Option Submission :=
  if sub.Language = "python" then
    match lookup with
    | none =>
        some { sub with Status := "completed",
                        Output := stripNulls "Error loading problem" }
    | some problem =>
        (evaluatePython sub.Code (effectiveFunctionName problem) exec
            problem.TestCases).map fun pd =>
          { sub with Passed := pd.1, Status := "completed",
                     Output := stripNulls pd.2 }
  else
    let s1 : Submission :=
      if sub.Code = "pass" then
        { sub with Passed := true, Output := "Correct Answer" }
      else
        { sub with Passed := false, Output := "Wrong Answer" }
    some { s1 with Status := "completed", Output := stripNulls s1.Output }

/-- Success of test case `tc` in the sense of the evaluation loop: its input
and expected output decode, the sandbox call returns output, and the trimmed,
null-stripped actual output equals the reduced expected output. -/
def casePasses (code functionName : String) (exec : Exec) (tc : TestCase) : Bool :=
  match tc.Input with
  | none => false
  | some v =>
    match tc.Output with
    | none => false
    | some w =>
      match exec code functionName (inputStrOf v) with
      | some (Except.ok out) =>
          decide (stripNulls (goTrimSpace out) = inputStrOf w)
      | _ => false

/-- The message the `select` at lines 456-462 receives: the wait error
channel delivered (possibly a nil error) or the status channel delivered. -/
inductive WaitMsg where
  | errMsg (e : Option String)
  | exited
deriving DecidableEq

/-- Oracle describing the result of each Docker API call
`executePythonCodeInContainerTest` makes, in program order. `waitMsg = none`
models a container that never exits with no wait error: neither channel of
the `select` ever delivers. -/
structure DockerEnv where
  newClientErr : Option String
  createResult : Except String String
  startErr : Option String
  waitMsg : Option WaitMsg
  logsErr : Option String
  readResult : Except String String

/-- Observable outcome of one adapter call: the returned value, the command
the container was created with (if creation was attempted), the id of the
container that was created (if any), and whether `ContainerRemove` ran
before returning. -/
structure ExecOutcome where
  result : Except String String
  cmd : Option (List String)
  createdId : Option String
  removed : Bool

/-- Model of `executePythonCodeInContainerTest` (lines 427-477) over the
Docker oracle: create a client, build the wrapper, create and start a
container running `python3 -c wrapper`, `select` on the wait channels, read
the logs, remove the container, return the log text. `none` models a call
that never returns because neither wait channel ever delivers; every other
path returns the outcome reached. -/
def executePythonCodeInContainerTest (env : DockerEnv)
    (code functionName testInput : String) : Option ExecOutcome :=
  match env.newClientErr with
  | some e => some ⟨Except.error e, none, none, false⟩
  | none =>
    let wrapper := buildWrapper code functionName testInput
    let cmd := ["python3", "-c", wrapper]
    match env.createResult with
    | Except.error e => some ⟨Except.error e, some cmd, none, false⟩
    | Except.ok cid =>
      match env.startErr with
      | some e => some ⟨Except.error e, some cmd, some cid, false⟩
      | none =>
        match env.waitMsg with
        | none => none
        | some (WaitMsg.errMsg (some e)) =>
            some ⟨Except.error e, some cmd, some cid, false⟩
        | some (WaitMsg.errMsg none) | some WaitMsg.exited =>
          match env.logsErr with
          | some e => some ⟨Except.error e, some cmd, some cid, false⟩
          | none =>
            match env.readResult with
            | Except.error e => some ⟨Except.error e, some cmd, some cid, false⟩
            | Except.ok logBytes =>
                some ⟨Except.ok logBytes, some cmd, some cid, true⟩

/-- The shared mutable state of the system: the persisted submission records
(a partial map from id), the next fresh id, and the in-memory
`submissionQueue` of pending submission ids in FIFO order. -/
structure Store where
  recs : Nat → Option Submission
  nextId : Nat
  queue : List Nat

/-- Point update of the record map, the model of `db.Create` / `db.Save`. -/
def updateRecs (recs : Nat → Option Submission) (id : Nat) (s : Submission) :
    Nat → Option Submission :=
  fun j => if j = id then some s else recs j

/-- The record `apiSubmitProblem` creates (lines 240-248): status `pending`,
with `Passed` and `Output` at their zero values. -/
def mkPending (pid : Nat) (code lang : String) : Submission :=
  { ProblemID := pid, Code := code, Language := lang,
    Passed := false, Output := "", Status := "pending" }

/-- One transition of the system, parameterized by the sandbox oracle and the
problem table. `submit` is `apiSubmitProblem`: it checks the problem exists,
creates a pending record and enqueues its id. `skipMissing` is the worker's
`continue` when `db.First` fails on a dequeued id. `process` is one worker
iteration: dequeue the head id, run `submissionWorkerStep` on its record, and
save the result. -/
inductive SysStep (exec : Exec) (problems : Nat → Option Problem) :
    Store → Store → Prop where
  | submit (st : Store) (pid : Nat) (code lang : String)
      (hp : problems pid ≠ none) :
      SysStep exec problems st
        ⟨updateRecs st.recs st.nextId (mkPending pid code lang),
          st.nextId + 1, st.queue ++ [st.nextId]⟩
  | skipMissing (st : Store) (id : Nat) (rest : List Nat)
      (hq : st.queue = id :: rest) (hr : st.recs id = none) :
      SysStep exec problems st ⟨st.recs, st.nextId, rest⟩
  | process (st : Store) (id : Nat) (rest : List Nat) (sub sub' : Submission)
      (hq : st.queue = id :: rest) (hr : st.recs id = some sub)
      (hw : submissionWorkerStep exec (problems sub.ProblemID) sub = some sub') :
      SysStep exec problems st ⟨updateRecs st.recs id sub', st.nextId, rest⟩

/-- The empty initial state: no records, no queued ids. -/
def initStore : Store :=
  { recs := fun _ => none, nextId := 0, queue := [] }

/-- States reachable from the empty initial state by system transitions. -/
inductive Reach (exec : Exec) (problems : Nat → Option Problem) :
    Store → Prop where
  | init : Reach exec problems initStore
  | step {st st' : Store} : Reach exec problems st →
      SysStep exec problems st st' → Reach exec problems st'

/-- The state invariant of the queue: queued ids are distinct, every queued
id has a pending record, and ids at or above `nextId` are unused. -/
def StoreInv (st : Store) : Prop :=
  st.queue.Nodup ∧
  (∀ id, id ∈ st.queue →
    ∃ sub, st.recs id = some sub ∧ sub.Status = "pending") ∧
  (∀ id, st.nextId ≤ id → st.recs id = none)

/-! ## Helper lemmas -/

theorem strAppend_assoc (a b c : String) : (a ++ b) ++ c = a ++ (b ++ c) := by
  cases a with
  | mk da =>
    cases b with
    | mk db =>
      cases c with
      | mk dc =>
        show String.mk ((da ++ db) ++ dc) = String.mk (da ++ (db ++ dc))
        rw [List.append_assoc]

theorem strEmpty_append (s : String) : "" ++ s = s := by
  cases s with
  | mk d => rfl

/-- Any record `submissionWorkerStep` returns is saved with status
`completed`. -/
theorem workerStep_status (exec : Exec) (lookup : Option Problem)
    (sub sub' : Submission)
    (h : submissionWorkerStep exec lookup sub = some sub') :
    sub'.Status = "completed" := by
  unfold submissionWorkerStep at h
  by_cases hl : sub.Language = "python"
  · rw [if_pos hl] at h
    cases lookup with
    | none =>
      injection h with h'
      subst h'
      rfl
    | some problem =>
      rcases Option.map_eq_some'.mp h with ⟨pd, _, hpd⟩
      subst hpd
      rfl
  · rw [if_neg hl] at h
    injection h with h'
    subst h'
    rfl

theorem storeInv_init : StoreInv initStore := by
  refine ⟨List.nodup_nil, ?_, ?_⟩
  · intro id hid
    simp [initStore] at hid
  · intro id _
    rfl

theorem storeInv_step (exec : Exec) (problems : Nat → Option Problem)
    {st st' : Store} (hinv : StoreInv st)
    (hstep : SysStep exec problems st st') : StoreInv st' := by
  obtain ⟨hnd, hqp, hfresh⟩ := hinv
  cases hstep with
  | submit pid code lang hp =>
    refine ⟨?_, ?_, ?_⟩
    · rw [List.nodup_append]
      refine ⟨hnd, List.nodup_singleton _, ?_⟩
      rw [List.disjoint_singleton]
      intro hmem
      obtain ⟨s, hs, _⟩ := hqp st.nextId hmem
      rw [hfresh st.nextId le_rfl] at hs
      exact Option.noConfusion hs
    · intro id hid
      rw [List.mem_append, List.mem_singleton] at hid
      cases hid with
      | inl hmem =>
        obtain ⟨s, hs, hps⟩ := hqp id hmem
        have hne : id ≠ st.nextId := by
          intro he
          rw [he] at hs
          rw [hfresh st.nextId le_rfl] at hs
          exact Option.noConfusion hs
        refine ⟨s, ?_, hps⟩
        simpa [updateRecs, hne] using hs
      | inr he =>
        subst he
        exact ⟨mkPending pid code lang, by simp [updateRecs], rfl⟩
    · intro id hle
      have hle' : st.nextId + 1 ≤ id := hle
      have h1 : id ≠ st.nextId := by omega
      have h2 : st.nextId ≤ id := by omega
      simp [updateRecs, h1, hfresh id h2]
  | skipMissing id rest hq hr =>
    refine ⟨?_, ?_, hfresh⟩
    · have h := hnd
      rw [hq] at h
      exact (List.nodup_cons.mp h).2
    · intro i hi
      exact hqp i (by rw [hq]; exact List.mem_cons_of_mem _ hi)
  | process id rest sub sub' hq hr hw =>
    have hndq := hnd
    rw [hq] at hndq
    obtain ⟨hnotin, hndr⟩ := List.nodup_cons.mp hndq
    refine ⟨hndr, ?_, ?_⟩
    · intro i hi
      have hne : i ≠ id := fun he => hnotin (he ▸ hi)
      obtain ⟨s, hs, hps⟩ := hqp i (by rw [hq]; exact List.mem_cons_of_mem _ hi)
      refine ⟨s, ?_, hps⟩
      simpa [updateRecs, hne] using hs
    · intro i hle
      have hn : st.recs i = none := hfresh i hle
      have hne : i ≠ id := by
        intro he
        subst he
        rw [hn] at hr
        exact Option.noConfusion hr
      simp [updateRecs, hne, hn]

theorem reach_storeInv (exec : Exec) (problems : Nat → Option Problem)
    {st : Store} (h : Reach exec problems st) : StoreInv st := by
  induction h with
  | init => exact storeInv_init
  | step _ hS ih => exact storeInv_step _ _ ih hS

/-! ## C9: submission status state machine -/

/-- C9: every Submission's status transitions pending -> completed at most
once and monotonically. In any reachable state, a system transition (a) only
creates records with status `pending` (the API creates submissions pending),
and (b) only changes an existing record by taking a `pending` one to a
`completed` one — so `completed` is terminal, no record is processed twice,
and `Passed`/`Output` (like every field) can only change at the single step
that sets status `completed`. -/
theorem submission_status_machine (exec : Exec)
    (problems : Nat → Option Problem) {st st' : Store}
    (hreach : Reach exec problems st)
    (hstep : SysStep exec problems st st') :
    (∀ id sub', st.recs id = none → st'.recs id = some sub' →
      sub'.Status = "pending") ∧
    (∀ id sub sub', st.recs id = some sub → st'.recs id = some sub' →
      sub' ≠ sub → sub.Status = "pending" ∧ sub'.Status = "completed") := by
  obtain ⟨hnd, hqp, hfresh⟩ := reach_storeInv exec problems hreach
  cases hstep with
  | submit pid code lang hp =>
    constructor
    · intro id sub' hnone hsome
      by_cases he : id = st.nextId
      · subst he
        simp only [updateRecs, if_pos rfl] at hsome
        injection hsome with h
        subst h
        rfl
      · simp only [updateRecs, if_neg he] at hsome
        rw [hnone] at hsome
        exact Option.noConfusion hsome
    · intro id sub sub' hsome hsome' hne
      have he : id ≠ st.nextId := by
        intro h
        rw [h, hfresh st.nextId le_rfl] at hsome
        exact Option.noConfusion hsome
      simp only [updateRecs, if_neg he] at hsome'
      rw [hsome] at hsome'
      injection hsome' with h
      exact absurd h.symm hne
  | skipMissing id0 rest hq hr =>
    constructor
    · intro id sub' hnone hsome
      rw [hnone] at hsome
      exact Option.noConfusion hsome
    · intro id sub sub' hsome hsome' hne
      rw [hsome] at hsome'
      injection hsome' with h
      exact absurd h.symm hne
  | process id0 rest sub0 sub0' hq hr hw =>
    constructor
    · intro id sub' hnone hsome
      by_cases he : id = id0
      · subst he
        rw [hnone] at hr
        exact Option.noConfusion hr
      · simp only [updateRecs, if_neg he] at hsome
        rw [hnone] at hsome
        exact Option.noConfusion hsome
    · intro id sub sub' hsome hsome' hne
      by_cases he : id = id0
      · subst he
        rw [hr] at hsome
        injection hsome with h
        simp only [updateRecs, if_pos rfl] at hsome'
        injection hsome' with h'
        obtain ⟨s, hs, hps⟩ := hqp id (by rw [hq]; exact List.mem_cons_self _ _)
        rw [hr] at hs
        injection hs with h2
        constructor
        · rw [← h, h2]
          exact hps
        · rw [← h']
          exact workerStep_status _ _ _ _ hw
      · simp only [updateRecs, if_neg he] at hsome'
        rw [hsome] at hsome'
        injection hsome' with h
        exact absurd h.symm hne

/-- Sandbox oracle used by the concrete state-machine trace: every run
returns output `ok`. -/
def execW : Exec := fun _ _ _ => some (Except.ok "ok")

/-- Problem table used by the concrete state-machine trace: every id maps to
a problem with function name `f` and no test cases. -/
def problemsW : Nat → Option Problem := fun _ => some ⟨"f", []⟩

/-- The store after one `submit` of a python submission for problem 5. -/
def st1W : Store :=
  ⟨updateRecs initStore.recs 0 (mkPending 5 "c" "python"), 1, [0]⟩

/-- The completed record the worker saves for that submission. -/
def subDoneW : Submission :=
  { ProblemID := 5, Code := "c", Language := "python",
    Passed := true, Output := "All test cases passed.", Status := "completed" }

/-- The store after the worker processes the queued submission. -/
def st2W : Store := ⟨updateRecs st1W.recs 0 subDoneW, 1, []⟩

theorem st1W_reach : Reach execW problemsW st1W :=
  Reach.step (Reach.init)
    (@SysStep.submit execW problemsW initStore 5 "c" "python"
      (fun h => Option.noConfusion h))

theorem st2W_step : SysStep execW problemsW st1W st2W :=
  @SysStep.process execW problemsW st1W 0 [] (mkPending 5 "c" "python")
    subDoneW rfl rfl (by decide)

/-- Witness for C9: on the concrete two-step trace (submit then process),
the processed record was `pending` before and `completed` after. -/
theorem submission_status_machine_witness :
    (mkPending 5 "c" "python").Status = "pending" ∧
      subDoneW.Status = "completed" :=
  (submission_status_machine execW problemsW st1W_reach st2W_step).2
    0 (mkPending 5 "c" "python") subDoneW rfl rfl (by decide)

/-! ## C1: verdict is the conjunction of the per-case comparisons -/

/-- The `allPassed` flag the loop accumulates is exactly the conjunction of
the per-case success tests. -/
theorem runCases_passed (code fn : String) (exec : Exec) :
    ∀ (cases : List TestCase) (idx : Nat) (p : Bool) (d : String),
      runCases code fn exec idx cases = some (p, d) →
      p = cases.all (casePasses code fn exec) := by
  intro cases
  induction cases with
  | nil =>
    intro idx p d h
    simp only [runCases, Option.some.injEq, Prod.mk.injEq] at h
    rw [← h.1]
    rfl
  | cons tc rest ih =>
    intro idx p d h
    rw [List.all_cons]
    cases hin : tc.Input with
    | none =>
      simp only [runCases, hin, Option.map_eq_some'] at h
      obtain ⟨pd, hrest, heq⟩ := h
      have hp := congrArg Prod.fst heq
      simp only at hp
      simp only [casePasses, hin, Bool.false_and]
      exact hp.symm
    | some v =>
      cases hout : tc.Output with
      | none =>
        simp only [runCases, hin, hout, Option.map_eq_some'] at h
        obtain ⟨pd, hrest, heq⟩ := h
        have hp := congrArg Prod.fst heq
        simp only at hp
        simp only [casePasses, hin, hout, Bool.false_and]
        exact hp.symm
      | some w =>
        cases hex : exec code fn (inputStrOf v) with
        | none =>
          simp only [runCases, hin, hout, hex] at h
          exact Option.noConfusion h
        | some res =>
          cases res with
          | error e =>
            simp only [runCases, hin, hout, hex, Option.map_eq_some'] at h
            obtain ⟨pd, hrest, heq⟩ := h
            have hp := congrArg Prod.fst heq
            simp only at hp
            simp only [casePasses, hin, hout, hex, Bool.false_and]
            exact hp.symm
          | ok out =>
            by_cases hcmp : stripNulls (goTrimSpace out) = inputStrOf w
            · simp only [runCases, hin, hout, hex, if_pos hcmp,
                Option.map_eq_some'] at h
              obtain ⟨pd, hrest, heq⟩ := h
              have hp := congrArg Prod.fst heq
              simp only at hp
              rw [← hp]
              simp only [casePasses, hin, hout, hex, decide_eq_true hcmp,
                Bool.true_and]
              exact ih (idx + 1) pd.1 pd.2 hrest
            · simp only [runCases, hin, hout, hex, if_neg hcmp,
                Option.map_eq_some'] at h
              obtain ⟨pd, hrest, heq⟩ := h
              have hp := congrArg Prod.fst heq
              simp only at hp
              rw [← hp]
              simp only [casePasses, hin, hout, hex, decide_eq_false hcmp,
                Bool.false_and]

/-- C1: for an evaluated python submission over N stored test cases, the
passed flag is true iff every one of the N per-case checks succeeds, each
check comparing the trimmed, null-stripped actual output for exact equality
with the reduced expected output (`casePasses`). -/
theorem passed_iff_all_comparisons (code fn : String) (exec : Exec)
    (cases : List TestCase) (p : Bool) (d : String)
    (h : evaluatePython code fn exec cases = some (p, d)) :
    p = true ↔ ∀ tc ∈ cases, casePasses code fn exec tc = true := by
  unfold evaluatePython at h
  rcases Option.map_eq_some'.mp h with ⟨pd, hrun, heq⟩
  have hall := runCases_passed code fn exec cases 1 pd.1 pd.2 hrun
  have hp : p = pd.1 := by
    by_cases hp1 : pd.1 = true
    · rw [if_pos hp1] at heq
      have hfst := congrArg Prod.fst heq
      simp only at hfst
      rw [← hfst, hp1]
    · rw [if_neg hp1] at heq
      have hfst := congrArg Prod.fst heq
      simp only at hfst
      rw [← hfst, Bool.eq_false_iff.mpr hp1]
  rw [hp, hall, List.all_eq_true]

/-- Sandbox oracle for the C1 witness: every run prints `olleh`. -/
def execC1 : Exec := fun _ _ _ => some (Except.ok "olleh\n")

/-- The seeded Reverse String test case: input `"hello"`, expected
`"olleh"`. -/
def tcC1 : TestCase := ⟨some (Json.str "hello"), some (Json.str "olleh")⟩

/-- Witness for C1 at the Reverse String test case with a sandbox whose
output trims to the expected text. -/
theorem passed_iff_all_comparisons_witness :
    (true : Bool) = true ↔
      ∀ tc ∈ [tcC1], casePasses "code" "reverseString" execC1 tc = true :=
  passed_iff_all_comparisons "code" "reverseString" execC1 [tcC1] true
    "All test cases passed." rfl

/-! ## Report structure lemmas -/

/-- The single report line the loop records for the test case at 1-based
index `idx`: the invalid-input, invalid-expected-output, execution-error,
passed or failed line; `none` when the sandbox call never returns. -/
def caseLine (code fn : String) (exec : Exec) (idx : Nat) (tc : TestCase) :
    Option String :=
  match tc.Input with
  | none => some ("Test case " ++ toString idx ++ ": invalid input format.\n")
  | some v =>
    match tc.Output with
    | none =>
        some ("Test case " ++ toString idx ++ ": invalid expected output format.\n")
    | some w =>
      match exec code fn (inputStrOf v) with
      | none => none
      | some (Except.error e) =>
          some ("Test case " ++ toString idx ++ ": execution error: " ++ e ++ "\n")
      | some (Except.ok out) =>
        let cleaned := stripNulls (goTrimSpace out)
        if cleaned = inputStrOf w then
          some ("Test case " ++ toString idx ++ " passed.\n")
        else
          some ("Test case " ++ toString idx ++ " failed: expected `" ++
            inputStrOf w ++ "`, got `" ++ cleaned ++ "`\n")

/-- The concatenation, in stored order, of the per-case report lines from
1-based index `idx` on. -/
def reportOf (code fn : String) (exec : Exec) : Nat → List TestCase → Option String
  | _, [] => some ""
  | idx, tc :: rest =>
    (caseLine code fn exec idx tc).bind fun line =>
      (reportOf code fn exec (idx + 1) rest).map fun d => line ++ d

/-- The `details` string the loop accumulates is exactly the concatenation
of the per-case report lines. -/
theorem runCases_report (code fn : String) (exec : Exec) :
    ∀ (cases : List TestCase) (idx : Nat) (p : Bool) (d : String),
      runCases code fn exec idx cases = some (p, d) →
      reportOf code fn exec idx cases = some d := by
  intro cases
  induction cases with
  | nil =>
    intro idx p d h
    simp only [runCases, Option.some.injEq, Prod.mk.injEq] at h
    rw [reportOf, ← h.2]
  | cons tc rest ih =>
    intro idx p d h
    cases hin : tc.Input with
    | none =>
      simp only [runCases, hin, Option.map_eq_some'] at h
      obtain ⟨pd, hrest, heq⟩ := h
      have hd := congrArg Prod.snd heq
      simp only at hd
      rw [reportOf]
      simp only [caseLine, hin, Option.some_bind,
        ih (idx + 1) pd.1 pd.2 hrest, Option.map_some']
      rw [hd]
    | some v =>
      cases hout : tc.Output with
      | none =>
        simp only [runCases, hin, hout, Option.map_eq_some'] at h
        obtain ⟨pd, hrest, heq⟩ := h
        have hd := congrArg Prod.snd heq
        simp only at hd
        rw [reportOf]
        simp only [caseLine, hin, hout, Option.some_bind,
          ih (idx + 1) pd.1 pd.2 hrest, Option.map_some']
        rw [hd]
      | some w =>
        cases hex : exec code fn (inputStrOf v) with
        | none =>
          simp only [runCases, hin, hout, hex] at h
          exact Option.noConfusion h
        | some res =>
          cases res with
          | error e =>
            simp only [runCases, hin, hout, hex, Option.map_eq_some'] at h
            obtain ⟨pd, hrest, heq⟩ := h
            have hd := congrArg Prod.snd heq
            simp only at hd
            rw [reportOf]
            simp only [caseLine, hin, hout, hex, Option.some_bind,
              ih (idx + 1) pd.1 pd.2 hrest, Option.map_some']
            rw [hd]
          | ok out =>
            by_cases hcmp : stripNulls (goTrimSpace out) = inputStrOf w
            · simp only [runCases, hin, hout, hex, if_pos hcmp,
                Option.map_eq_some'] at h
              obtain ⟨pd, hrest, heq⟩ := h
              have hd := congrArg Prod.snd heq
              simp only at hd
              rw [reportOf]
              simp only [caseLine, hin, hout, hex, if_pos hcmp, Option.some_bind,
                ih (idx + 1) pd.1 pd.2 hrest, Option.map_some']
              rw [hd]
            · simp only [runCases, hin, hout, hex, if_neg hcmp,
                Option.map_eq_some'] at h
              obtain ⟨pd, hrest, heq⟩ := h
              have hd := congrArg Prod.snd heq
              simp only at hd
              rw [reportOf]
              simp only [caseLine, hin, hout, hex, if_neg hcmp, Option.some_bind,
                ih (idx + 1) pd.1 pd.2 hrest, Option.map_some']
              rw [hd]

/-- The loop over `cs1 ++ cs2` is the loop over `cs1` followed by the loop
over `cs2` at the shifted index: the verdicts conjoin and the details
concatenate. In particular no per-case failure aborts the remaining cases. -/
theorem runCases_append (code fn : String) (exec : Exec) (cs2 : List TestCase) :
    ∀ (cs1 : List TestCase) (idx : Nat),
      runCases code fn exec idx (cs1 ++ cs2) =
        (runCases code fn exec idx cs1).bind fun pd1 =>
          (runCases code fn exec (idx + cs1.length) cs2).map fun pd2 =>
            (pd1.1 && pd2.1, pd1.2 ++ pd2.2) := by
  intro cs1
  induction cs1 with
  | nil =>
    intro idx
    simp only [List.nil_append, runCases, List.length_nil, Nat.add_zero,
      Option.some_bind]
    cases h2 : runCases code fn exec idx cs2 with
    | none => rfl
    | some pd =>
      simp only [Option.map_some', Bool.true_and, strEmpty_append]
  | cons tc cs1' ih =>
    intro idx
    have harith : idx + (tc :: cs1').length = idx + 1 + cs1'.length := by
      simp only [List.length_cons]
      omega
    rw [harith]
    cases hin : tc.Input with
    | none =>
      simp only [List.cons_append, runCases, hin, List.append_eq]
      rw [ih (idx + 1)]
      cases h1 : runCases code fn exec (idx + 1) cs1' with
      | none => rfl
      | some pd1 =>
        cases h2 : runCases code fn exec (idx + 1 + cs1'.length) cs2 with
        | none => rfl
        | some pd2 =>
          simp only [Option.some_bind, Option.map_some', Bool.false_and,
            strAppend_assoc]
    | some v =>
      cases hout : tc.Output with
      | none =>
        simp only [List.cons_append, runCases, hin, hout, List.append_eq]
        rw [ih (idx + 1)]
        cases h1 : runCases code fn exec (idx + 1) cs1' with
        | none => rfl
        | some pd1 =>
          cases h2 : runCases code fn exec (idx + 1 + cs1'.length) cs2 with
          | none => rfl
          | some pd2 =>
            simp only [Option.some_bind, Option.map_some', Bool.false_and,
              strAppend_assoc]
      | some w =>
        cases hex : exec code fn (inputStrOf v) with
        | none =>
          simp only [List.cons_append, runCases, hin, hout, hex,
            Option.none_bind]
        | some res =>
          cases res with
          | error e =>
            simp only [List.cons_append, runCases, hin, hout, hex,
              List.append_eq]
            rw [ih (idx + 1)]
            cases h1 : runCases code fn exec (idx + 1) cs1' with
            | none => rfl
            | some pd1 =>
              cases h2 : runCases code fn exec (idx + 1 + cs1'.length) cs2 with
              | none => rfl
              | some pd2 =>
                simp only [Option.some_bind, Option.map_some', Bool.false_and,
                  strAppend_assoc]
          | ok out =>
            by_cases hcmp : stripNulls (goTrimSpace out) = inputStrOf w
            · simp only [List.cons_append, runCases, hin, hout, hex,
                if_pos hcmp, List.append_eq]
              rw [ih (idx + 1)]
              cases h1 : runCases code fn exec (idx + 1) cs1' with
              | none => rfl
              | some pd1 =>
                cases h2 : runCases code fn exec (idx + 1 + cs1'.length) cs2 with
                | none => rfl
                | some pd2 =>
                  simp only [Option.some_bind, Option.map_some',
                    Bool.and_assoc, strAppend_assoc]
            · simp only [List.cons_append, runCases, hin, hout, hex,
                if_neg hcmp, List.append_eq]
              rw [ih (idx + 1)]
              cases h1 : runCases code fn exec (idx + 1) cs1' with
              | none => rfl
              | some pd1 =>
                cases h2 : runCases code fn exec (idx + 1 + cs1'.length) cs2 with
                | none => rfl
                | some pd2 =>
                  simp only [Option.some_bind, Option.map_some', Bool.false_and,
                    strAppend_assoc]

/-! ## C4, C5: the saved output text -/

/-- Sandbox oracle whose single run prints the expected `42`. -/
def execC4pass : Exec := fun _ _ _ => some (Except.ok "42")

/-- A test case with numeric input and expected output `42`. -/
def tcC4 : TestCase := ⟨some (Json.num 42), some (Json.num 42)⟩

/-- A pending python submission as `apiSubmitProblem` creates it. -/
def subC4 : Submission :=
  { ProblemID := 1, Code := "c", Language := "python",
    Passed := false, Output := "", Status := "pending" }

/-- A one-test-case problem with function name `f`. -/
def probC4 : Problem := ⟨"f", [tcC4]⟩

/-- Counterexample to C4: on a submission whose single test case passes, the
saved output field is the fixed summary `All test cases passed.`, not the
concatenation of the per-case report lines (`Test case 1 passed.\n`), so the
report concatenation is not used verbatim for every evaluated submission. -/
theorem report_verbatim_counterexample :
    submissionWorkerStep execC4pass (some probC4) subC4 =
      some { subC4 with Passed := true, Output := "All test cases passed.",
                        Status := "completed" } ∧
    reportOf subC4.Code (effectiveFunctionName probC4) execC4pass 1
        probC4.TestCases = some "Test case 1 passed.\n" ∧
    "All test cases passed." ≠ "Test case 1 passed.\n" :=
  ⟨rfl, rfl, by decide⟩

/-- C4 (amended): the output field saved for an evaluated python submission
is the null-stripped concatenation of the per-case report lines exactly when
the verdict is fail; when every case passes the saved output is the fixed
summary `All test cases passed.` instead of the per-case concatenation. -/
theorem report_text_shape (exec : Exec) (sub : Submission) (prob : Problem)
    (sub' : Submission) (hlang : sub.Language = "python")
    (h : submissionWorkerStep exec (some prob) sub = some sub') :
    (sub'.Passed = false →
      ∃ d, runCases sub.Code (effectiveFunctionName prob) exec 1
              prob.TestCases = some (false, d) ∧
        reportOf sub.Code (effectiveFunctionName prob) exec 1
            prob.TestCases = some d ∧
        sub'.Output = stripNulls d) ∧
    (sub'.Passed = true → sub'.Output = "All test cases passed.") := by
  unfold submissionWorkerStep at h
  rw [if_pos hlang] at h
  rcases Option.map_eq_some'.mp h with ⟨pd, hev, heq⟩
  unfold evaluatePython at hev
  rcases Option.map_eq_some'.mp hev with ⟨qd, hrun, heq2⟩
  subst heq
  by_cases hq : qd.1 = true
  · rw [if_pos hq] at heq2
    subst heq2
    constructor
    · intro hfalse
      exact absurd hfalse (by simp)
    · intro _
      show stripNulls "All test cases passed." = "All test cases passed."
      decide
  · rw [if_neg hq] at heq2
    subst heq2
    have hq' : qd.1 = false := by
      cases hqv : qd.1 with
      | false => rfl
      | true => exact absurd hqv hq
    constructor
    · intro _
      refine ⟨qd.2, ?_, runCases_report _ _ _ _ _ qd.1 qd.2 hrun, rfl⟩
      rw [← hq']
      exact hrun
    · intro htrue
      exact absurd htrue (by simp)

/-- Sandbox oracle whose run prints `41`, failing against expectation 42. -/
def execC4fail : Exec := fun _ _ _ => some (Except.ok "41")

/-- The completed record the worker saves for that failing run. -/
def subC4fail : Submission :=
  { ProblemID := 1, Code := "c", Language := "python", Passed := false,
    Output := "Test case 1 failed: expected `42`, got `41`\n",
    Status := "completed" }

/-- Witness for C4 (amended): on a failing one-case run the saved output is
the (null-stripped) per-case report concatenation. -/
theorem report_text_shape_witness :
    ∃ d, runCases subC4.Code (effectiveFunctionName probC4) execC4fail 1
            probC4.TestCases = some (false, d) ∧
      reportOf subC4.Code (effectiveFunctionName probC4) execC4fail 1
          probC4.TestCases = some d ∧
      subC4fail.Output = stripNulls d :=
  (report_text_shape execC4fail subC4 probC4 subC4fail rfl rfl).1 rfl

/-- A pending python submission for the zero-test-case problem. -/
def subC5 : Submission :=
  { ProblemID := 2, Code := "c", Language := "python",
    Passed := false, Output := "", Status := "pending" }

/-- A problem with no test cases. -/
def probC5 : Problem := ⟨"f", []⟩

/-- Sandbox oracle for the zero-test-case runs (never consulted). -/
def execC5 : Exec := fun _ _ _ => none

/-- Counterexample to C5: a zero-test-case evaluation completes with
passed = true but its output field is `All test cases passed.`, not the
empty report. -/
theorem zero_cases_counterexample :
    submissionWorkerStep execC5 (some probC5) subC5 =
      some { subC5 with Passed := true, Output := "All test cases passed.",
                        Status := "completed" } ∧
    "All test cases passed." ≠ "" :=
  ⟨rfl, by decide⟩

/-- C5 (amended): an evaluated python submission whose problem has zero test
cases always completes with passed = true and output
`All test cases passed.` (rather than an empty report). -/
theorem zero_cases_verdict (exec : Exec) (sub : Submission) (prob : Problem)
    (hlang : sub.Language = "python") (hzero : prob.TestCases = []) :
    submissionWorkerStep exec (some prob) sub =
      some { sub with Passed := true, Output := "All test cases passed.",
                      Status := "completed" } := by
  unfold submissionWorkerStep
  rw [if_pos hlang]
  have hs : stripNulls "All test cases passed." = "All test cases passed." := by
    decide
  simp [hzero, evaluatePython, runCases, hs]

/-- Witness for C5 (amended) at the concrete zero-test-case problem. -/
theorem zero_cases_verdict_witness :
    submissionWorkerStep execC5 (some probC5) subC5 =
      some { subC5 with Passed := true, Output := "All test cases passed.",
                        Status := "completed" } :=
  zero_cases_verdict execC5 subC5 probC5 rfl rfl

/-! ## C10: non-python submissions -/

/-- C10: a submission in any language other than python is completed without
consulting the sandbox: passed = true with output `Correct Answer` iff the
submitted code text is exactly `pass`, else passed = false with output
`Wrong Answer`. -/
theorem non_python_policy (exec : Exec) (lookup : Option Problem)
    (sub : Submission) (hlang : sub.Language ≠ "python") :
    submissionWorkerStep exec lookup sub =
      some { sub with Passed := decide (sub.Code = "pass"),
                      Output := if sub.Code = "pass" then "Correct Answer"
                                else "Wrong Answer",
                      Status := "completed" } := by
  unfold submissionWorkerStep
  rw [if_neg hlang]
  by_cases hc : sub.Code = "pass"
  · have h1 : stripNulls "Correct Answer" = "Correct Answer" := by decide
    simp [hc, h1]
  · have h1 : stripNulls "Wrong Answer" = "Wrong Answer" := by decide
    simp [hc, h1]

/-- A pending non-python submission whose code is exactly `pass`. -/
def subC10 : Submission :=
  { ProblemID := 3, Code := "pass", Language := "javascript",
    Passed := false, Output := "", Status := "pending" }

/-- Witness for C10: the javascript submission with code `pass` completes as
passed with `Correct Answer`. -/
theorem non_python_policy_witness :
    submissionWorkerStep execC5 none subC10 =
      some { subC10 with Passed := decide (subC10.Code = "pass"),
                         Output := if subC10.Code = "pass" then "Correct Answer"
                                   else "Wrong Answer",
                         Status := "completed" } :=
  non_python_policy execC5 none subC10 (by decide)

/-! ## C6, C7: per-case failures never abort the loop -/

/-- If the case in the middle of the list contributes a failing line (its
head step is the `map` that prepends `line` and forces the flag false), the
whole loop still evaluates the prefix and the suffix: the verdict is false
and the details are prefix-details ++ line ++ suffix-details. -/
theorem runCases_mid_fail (code fn : String) (exec : Exec)
    (cs1 cs2 : List TestCase) (tc : TestCase) (idx : Nat) (p : Bool)
    (d line : String)
    (hhead : runCases code fn exec (idx + cs1.length) (tc :: cs2) =
      (runCases code fn exec (idx + cs1.length + 1) cs2).map fun pd =>
        (false, line ++ pd.2))
    (hrun : runCases code fn exec idx (cs1 ++ tc :: cs2) = some (p, d)) :
    p = false ∧
    ∃ pd1 pd2, runCases code fn exec idx cs1 = some pd1 ∧
      runCases code fn exec (idx + cs1.length + 1) cs2 = some pd2 ∧
      d = pd1.2 ++ (line ++ pd2.2) := by
  rw [runCases_append code fn exec (tc :: cs2) cs1 idx, hhead] at hrun
  cases h1 : runCases code fn exec idx cs1 with
  | none =>
    rw [h1] at hrun
    exact Option.noConfusion hrun
  | some pd1 =>
    rw [h1] at hrun
    cases h2 : runCases code fn exec (idx + cs1.length + 1) cs2 with
    | none =>
      rw [h2] at hrun
      exact Option.noConfusion hrun
    | some pd2 =>
      rw [h2] at hrun
      simp only [Option.some_bind, Option.map_some', Option.some.injEq,
        Prod.mk.injEq, Bool.and_false] at hrun
      exact ⟨hrun.1.symm, pd1, pd2, rfl, rfl, hrun.2.symm⟩

/-- C7: a test case whose structured input fails to decode contributes the
per-case line `Test case N: invalid input format.` (N its 1-based index),
forces the overall verdict false, and the loop still evaluates every
remaining test case: the suffix evaluates to its own result, embedded in the
details after the invalid-input line. -/
theorem invalid_input_continues (code fn : String) (exec : Exec)
    (cs1 cs2 : List TestCase) (tc : TestCase) (idx : Nat) (p : Bool)
    (d : String) (hbad : tc.Input = none)
    (hrun : runCases code fn exec idx (cs1 ++ tc :: cs2) = some (p, d)) :
    p = false ∧
    ∃ pd1 pd2, runCases code fn exec idx cs1 = some pd1 ∧
      runCases code fn exec (idx + cs1.length + 1) cs2 = some pd2 ∧
      d = pd1.2 ++ (("Test case " ++ toString (idx + cs1.length) ++
        ": invalid input format.\n") ++ pd2.2) := by
  refine runCases_mid_fail code fn exec cs1 cs2 tc idx p d _ ?_ hrun
  simp only [runCases, hbad]

/-- Sandbox oracle for the C7 witness: every run prints `ok`. -/
def execC7 : Exec := fun _ _ _ => some (Except.ok "ok")

/-- A decodable test case expecting `ok`. -/
def tcC7good : TestCase := ⟨some (Json.str "in"), some (Json.str "ok")⟩

/-- A test case whose stored input bytes fail to decode. -/
def tcC7bad : TestCase := ⟨none, some (Json.str "ok")⟩

/-- Witness for C7: with a good case before and after the undecodable one,
the loop fails overall but still evaluates the suffix case. -/
theorem invalid_input_continues_witness :
    (false : Bool) = false ∧
    ∃ pd1 pd2, runCases "c" "f" execC7 1 [tcC7good] = some pd1 ∧
      runCases "c" "f" execC7 (1 + [tcC7good].length + 1) [tcC7good] =
        some pd2 ∧
      ("Test case 1 passed.\nTest case 2: invalid input format.\n" ++
          "Test case 3 passed.\n") =
        pd1.2 ++ (("Test case " ++ toString (1 + [tcC7good].length) ++
          ": invalid input format.\n") ++ pd2.2) :=
  invalid_input_continues "c" "f" execC7 [tcC7good] [tcC7good] tcC7bad 1 false
    ("Test case 1 passed.\nTest case 2: invalid input format.\n" ++
      "Test case 3 passed.\n") rfl (by decide)

/-- Sandbox oracle modelling an unreachable Docker daemon: every execution
attempt returns the client-creation error. -/
def execC6 : Exec :=
  fun _ _ _ => some (Except.error "Cannot connect to the Docker daemon")

/-- Two decodable test cases. -/
def probC6 : Problem :=
  ⟨"f", [⟨some (Json.num 1), some (Json.num 1)⟩,
         ⟨some (Json.num 2), some (Json.num 2)⟩]⟩

/-- A pending python submission for that problem. -/
def subC6 : Submission :=
  { ProblemID := 4, Code := "c", Language := "python",
    Passed := false, Output := "", Status := "pending" }

/-- Counterexample to C6: when the sandbox provisioning backend cannot be
reached, evaluation does NOT abort the whole submission: both test cases are
still attempted and each contributes its own execution-error line (the saved
output contains a line for test case 2, not a single whole-submission
diagnostic). -/
theorem infra_abort_counterexample :
    submissionWorkerStep execC6 (some probC6) subC6 =
      some { subC6 with Passed := false,
                        Output := "Test case 1: execution error: " ++
                          "Cannot connect to the Docker daemon\n" ++
                          "Test case 2: execution error: " ++
                          "Cannot connect to the Docker daemon\n",
                        Status := "completed" } ∧
    ("Test case 1: execution error: Cannot connect to the Docker daemon\n" ++
        "Test case 2: execution error: Cannot connect to the Docker daemon\n") ≠
      "Test case 1: execution error: Cannot connect to the Docker daemon\n" :=
  ⟨by decide, by decide⟩

/-- C6 (amended): only a Problem-load failure aborts evaluation of the whole
submission, marking it completed with the diagnostic `Error loading problem`
and `Passed` unchanged (false for a freshly created pending record); an
error reaching the sandbox backend is handled per test case: the affected
case records `Test case N: execution error: <message>`, forces the verdict
false, and the remaining cases are still evaluated. -/
theorem infra_error_handling (exec : Exec) (sub : Submission)
    (hlang : sub.Language = "python") :
    (submissionWorkerStep exec none sub =
      some { sub with Status := "completed",
                      Output := "Error loading problem" }) ∧
    (∀ (fn e : String) (cs1 cs2 : List TestCase) (tc : TestCase) (v w : Json)
      (idx : Nat) (p : Bool) (d : String),
      tc.Input = some v → tc.Output = some w →
      exec sub.Code fn (inputStrOf v) = some (Except.error e) →
      runCases sub.Code fn exec idx (cs1 ++ tc :: cs2) = some (p, d) →
      p = false ∧
      ∃ pd1 pd2, runCases sub.Code fn exec idx cs1 = some pd1 ∧
        runCases sub.Code fn exec (idx + cs1.length + 1) cs2 = some pd2 ∧
        d = pd1.2 ++ (("Test case " ++ toString (idx + cs1.length) ++
          ": execution error: " ++ e ++ "\n") ++ pd2.2)) := by
  constructor
  · unfold submissionWorkerStep
    rw [if_pos hlang]
    have h1 : stripNulls "Error loading problem" = "Error loading problem" := by
      decide
    simp [h1]
  · intro fn e cs1 cs2 tc v w idx p d hin hout hex hrun
    refine runCases_mid_fail sub.Code fn exec cs1 cs2 tc idx p d _ ?_ hrun
    simp only [runCases, hin, hout, hex]

/-- Witness for C6 (amended): the load-failure diagnostic on the concrete
submission, and the per-case continuation when the Docker daemon is
unreachable for the first of two cases. -/
theorem infra_error_handling_witness :
    (submissionWorkerStep execC6 none subC6 =
      some { subC6 with Status := "completed",
                        Output := "Error loading problem" }) ∧
    ((false : Bool) = false ∧
      ∃ pd1 pd2, runCases subC6.Code "f" execC6 1 [] = some pd1 ∧
        runCases subC6.Code "f" execC6 (1 + List.length ([] : List TestCase) + 1)
            [⟨some (Json.num 2), some (Json.num 2)⟩] = some pd2 ∧
        ("Test case 1: execution error: Cannot connect to the Docker daemon\n" ++
            "Test case 2: execution error: Cannot connect to the Docker daemon\n") =
          pd1.2 ++ (("Test case " ++ toString (1 + List.length ([] : List TestCase)) ++
            ": execution error: " ++ "Cannot connect to the Docker daemon" ++ "\n") ++
            pd2.2)) :=
  ⟨(infra_error_handling execC6 subC6 rfl).1,
    (infra_error_handling execC6 subC6 rfl).2 "f"
      "Cannot connect to the Docker daemon" []
      [⟨some (Json.num 2), some (Json.num 2)⟩]
      ⟨some (Json.num 1), some (Json.num 1)⟩ (Json.num 1) (Json.num 1) 1 false
      ("Test case 1: execution error: Cannot connect to the Docker daemon\n" ++
        "Test case 2: execution error: Cannot connect to the Docker daemon\n")
      rfl rfl rfl (by decide)⟩

/-! ## C2, C3: container teardown and the absence of a time budget -/

/-- Docker oracle on which container start fails after creation succeeded. -/
def envStartFail : DockerEnv :=
  ⟨none, Except.ok "c1", some "start failed", some WaitMsg.exited, none,
    Except.ok ""⟩

/-- The outcome of the adapter on `envStartFail`. -/
def oStartFail : ExecOutcome :=
  ⟨Except.error "start failed",
    some ["python3", "-c", buildWrapper "c" "f" "x"], some "c1", false⟩

/-- Counterexample to C2: on the exit path where `ContainerStart` fails, the
adapter returns with the created container NOT removed (`createdId` is set
but `removed` is false), so removal does not happen on every exit path. -/
theorem container_removal_counterexample :
    executePythonCodeInContainerTest envStartFail "c" "f" "x" =
        some oStartFail ∧
      oStartFail.createdId = some "c1" ∧ oStartFail.removed = false :=
  ⟨rfl, rfl, rfl⟩

/-- C2 (amended): `ContainerRemove` runs before returning exactly on the
fully successful path: whenever the adapter returns an outcome, the
container was removed iff the result is a success (the log text was read);
on every error path — client creation, container creation, start, a wait
error, logs, or reading the log stream — the container is not removed. -/
theorem container_removed_iff_success (env : DockerEnv)
    (code fn input : String) (o : ExecOutcome)
    (h : executePythonCodeInContainerTest env code fn input = some o) :
    o.removed = true ↔ o.result.toOption.isSome = true := by
  obtain ⟨nc, cr, se, wm, le, rr⟩ := env
  cases nc with
  | some e =>
    simp only [executePythonCodeInContainerTest, Option.some.injEq] at h
    subst h
    simp [Except.toOption]
  | none =>
    cases cr with
    | error e =>
      simp only [executePythonCodeInContainerTest, Option.some.injEq] at h
      subst h
      simp [Except.toOption]
    | ok cid =>
      cases se with
      | some e =>
        simp only [executePythonCodeInContainerTest, Option.some.injEq] at h
        subst h
        simp [Except.toOption]
      | none =>
        cases wm with
        | none =>
          simp only [executePythonCodeInContainerTest] at h
          exact Option.noConfusion h
        | some msg =>
          cases msg with
          | errMsg oe =>
            cases oe with
            | some e =>
              simp only [executePythonCodeInContainerTest,
                Option.some.injEq] at h
              subst h
              simp [Except.toOption]
            | none =>
              cases le with
              | some e =>
                simp only [executePythonCodeInContainerTest,
                  Option.some.injEq] at h
                subst h
                simp [Except.toOption]
              | none =>
                cases rr with
                | error e =>
                  simp only [executePythonCodeInContainerTest,
                    Option.some.injEq] at h
                  subst h
                  simp [Except.toOption]
                | ok logBytes =>
                  simp only [executePythonCodeInContainerTest,
                    Option.some.injEq] at h
                  subst h
                  simp [Except.toOption]
          | exited =>
            cases le with
            | some e =>
              simp only [executePythonCodeInContainerTest,
                Option.some.injEq] at h
              subst h
              simp [Except.toOption]
            | none =>
              cases rr with
              | error e =>
                simp only [executePythonCodeInContainerTest,
                  Option.some.injEq] at h
                subst h
                simp [Except.toOption]
              | ok logBytes =>
                simp only [executePythonCodeInContainerTest,
                  Option.some.injEq] at h
                subst h
                simp [Except.toOption]

/-- Docker oracle of a fully successful run. -/
def envOk : DockerEnv :=
  ⟨none, Except.ok "c1", none, some WaitMsg.exited, none, Except.ok "out"⟩

/-- The outcome of the adapter on `envOk`: logs read, container removed. -/
def oOk : ExecOutcome :=
  ⟨Except.ok "out", some ["python3", "-c", buildWrapper "c" "f" "x"],
    some "c1", true⟩

/-- Witness for C2 (amended) on the fully successful run. -/
theorem container_removed_iff_success_witness :
    oOk.removed = true ↔ oOk.result.toOption.isSome = true :=
  container_removed_iff_success envOk "c" "f" "x" oOk rfl

/-- Docker oracle of a container that never exits: client, create and start
succeed, but neither wait channel ever delivers. -/
def envHang : DockerEnv :=
  ⟨none, Except.ok "c1", none, none, none, Except.ok ""⟩

/-- Counterexample to C3: with a container that never exits, the adapter
call never returns (`none`): there is no time budget, no timeout
classification, and the worker blocks forever instead of reporting a
timeout indicator. -/
theorem no_timeout_counterexample :
    executePythonCodeInContainerTest envHang "c" "f" "x" = none :=
  rfl

/-- C3 (amended): the adapter blocks until the container exits or a wait
error is delivered, with no time budget: the call fails to return exactly
when client creation, container creation and start all succeed but neither
wait channel ever delivers; in every other situation it returns, and no
timeout classification exists anywhere in its outcomes. -/
theorem wait_has_no_time_budget (env : DockerEnv) (code fn input : String) :
    executePythonCodeInContainerTest env code fn input = none ↔
      env.newClientErr = none ∧ env.createResult.toOption.isSome = true ∧
        env.startErr = none ∧ env.waitMsg = none := by
  obtain ⟨nc, cr, se, wm, le, rr⟩ := env
  cases nc with
  | some e => simp [executePythonCodeInContainerTest]
  | none =>
    cases cr with
    | error e => simp [executePythonCodeInContainerTest, Except.toOption]
    | ok cid =>
      cases se with
      | some e => simp [executePythonCodeInContainerTest, Except.toOption]
      | none =>
        cases wm with
        | none => simp [executePythonCodeInContainerTest, Except.toOption]
        | some msg =>
          cases msg with
          | errMsg oe =>
            cases oe with
            | some e => simp [executePythonCodeInContainerTest, Except.toOption]
            | none =>
              cases le with
              | some e =>
                simp [executePythonCodeInContainerTest, Except.toOption]
              | none =>
                cases rr with
                | error e =>
                  simp [executePythonCodeInContainerTest, Except.toOption]
                | ok logBytes =>
                  simp [executePythonCodeInContainerTest, Except.toOption]
          | exited =>
            cases le with
            | some e => simp [executePythonCodeInContainerTest, Except.toOption]
            | none =>
              cases rr with
              | error e =>
                simp [executePythonCodeInContainerTest, Except.toOption]
              | ok logBytes =>
                simp [executePythonCodeInContainerTest, Except.toOption]

/-! ## C8: input reduction policy and the sole-argument call -/

/-- C8: the textual form used for execution is the string itself for a plain
string input and the compact JSON serialization for every other decoded
shape, and whenever the adapter reaches command construction, the container
command is `python3 -c` applied to the wrapper whose `print` call passes
exactly the quoted reduced text as the sole argument of the named
function. -/
theorem input_serialization_policy :
    (∀ s : String, inputStrOf (Json.str s) = s) ∧
    (∀ v : Json, (∀ s, v ≠ Json.str s) → inputStrOf v = serializeJson v) ∧
    (∀ (env : DockerEnv) (code fn : String) (v : Json) (o : ExecOutcome),
      env.newClientErr = none →
      executePythonCodeInContainerTest env code fn (inputStrOf v) = some o →
      o.cmd = some ["python3", "-c",
        "exec('''" ++ code ++ "''')\n" ++
          ("print(" ++ fn ++ "(" ++ goQuote (inputStrOf v) ++ "))\n")]) := by
  refine ⟨fun s => rfl, ?_, ?_⟩
  · intro v hv
    cases v with
    | str s => exact absurd rfl (hv s)
    | num n => rfl
    | bool b => rfl
    | null => rfl
    | arr elems => rfl
    | obj fields => rfl
  · intro env code fn v o hnc h
    obtain ⟨nc, cr, se, wm, le, rr⟩ := env
    simp only at hnc
    subst hnc
    cases cr with
    | error e =>
      simp only [executePythonCodeInContainerTest, Option.some.injEq] at h
      subst h
      rfl
    | ok cid =>
      cases se with
      | some e =>
        simp only [executePythonCodeInContainerTest, Option.some.injEq] at h
        subst h
        rfl
      | none =>
        cases wm with
        | none =>
          simp only [executePythonCodeInContainerTest] at h
          exact Option.noConfusion h
        | some msg =>
          cases msg with
          | errMsg oe =>
            cases oe with
            | some e =>
              simp only [executePythonCodeInContainerTest,
                Option.some.injEq] at h
              subst h
              rfl
            | none =>
              cases le with
              | some e =>
                simp only [executePythonCodeInContainerTest,
                  Option.some.injEq] at h
                subst h
                rfl
              | none =>
                cases rr with
                | error e =>
                  simp only [executePythonCodeInContainerTest,
                    Option.some.injEq] at h
                  subst h
                  rfl
                | ok logBytes =>
                  simp only [executePythonCodeInContainerTest,
                    Option.some.injEq] at h
                  subst h
                  rfl
          | exited =>
            cases le with
            | some e =>
              simp only [executePythonCodeInContainerTest,
                Option.some.injEq] at h
              subst h
              rfl
            | none =>
              cases rr with
              | error e =>
                simp only [executePythonCodeInContainerTest,
                  Option.some.injEq] at h
                subst h
                rfl
              | ok logBytes =>
                simp only [executePythonCodeInContainerTest,
                  Option.some.injEq] at h
                subst h
                rfl

/-- The decoded Two Sum style array input used in the C8 witness. -/
def jsonC8 : Json := Json.arr [Json.num 0, Json.num 1]

/-- The adapter outcome of a successful run on the serialized array input. -/
def oC8 : ExecOutcome :=
  ⟨Except.ok "out",
    some ["python3", "-c", buildWrapper "c" "f" (inputStrOf jsonC8)],
    some "c1", true⟩

/-- Witness for C8: a non-string input is reduced to its compact JSON text
`[0,1]`, and the successful adapter run carries exactly the wrapper command
with that text quoted as the sole argument. -/
theorem input_serialization_policy_witness :
    inputStrOf jsonC8 = serializeJson jsonC8 ∧
    inputStrOf jsonC8 = "[0,1]" ∧
    oC8.cmd = some ["python3", "-c",
      "exec('''" ++ "c" ++ "''')\n" ++
        ("print(" ++ "f" ++ "(" ++ goQuote (inputStrOf jsonC8) ++ "))\n")] :=
  ⟨input_serialization_policy.2.1 jsonC8 (fun s h => Json.noConfusion h),
    by decide,
    input_serialization_policy.2.2 envOk "c" "f" jsonC8 oC8 rfl rfl⟩

end CodeJudge
